import Mathlib

/-!
Shallow embedding of the LibSee instrumentation engine (src/libsee.c) and
proofs of the specification claims about it.

Machine integers (`size_t`) are modelled as `Nat` reduced modulo `2 ^ 64`
wherever overflow can matter.  The two global counter arrays
`libsee_thread_cycles` / `libsee_thread_calls` (each
`LIBSEE_MAX_THREADS` unions of 94 `size_t` counters) are modelled as flat
functions `Nat → Nat`, exactly mirroring the `indexed[94]` view of the
`thread_local_counters` union: the counter of symbol `s` in bank `t` lives
at flat index `94 * t + s`.
-/

/-- The value `2 ^ 64`, the modulus of `size_t` arithmetic on the targeted platforms. -/
def w64 : Nat := 2 ^ 64

/-- The `LIBSEE_MAX_THREADS` bound (default configuration, libsee.c line 16). -/
def LIBSEE_MAX_THREADS : Nat := 1024

/-- The quotient `sizeof(thread_local_counters) / sizeof(size_t)`: the number of covered
symbols, i.e. the length of `indexed[94]` (libsee.c line 182). -/
def countersPerThread : Nat := 94

/-- Flat index of the counter of symbol `sym` in the bank of core `cpu`:
`libsee_thread_cycles[cpu].named.sym` is `indexed` element `sym` of bank
`cpu`, i.e. flat element `94 * cpu + sym` of the whole array. -/
def flatIdx (cpu sym : Nat) : Nat := countersPerThread * cpu + sym

/-- The instruction-set families distinguished by the `#ifdef` chains of
`libsee_get_cpu_index` / `libsee_get_cpu_cycle` (libsee.c lines 425-459). -/
inductive CpuArch : Type
  | aarch64 : CpuArch
  | x86 : CpuArch
  | other : CpuArch

/-- Embedding of `libsee_get_cpu_index` (libsee.c lines 425-442).  The hardware readings
are inputs: `mpidr` is the AArch64 `MPIDR_EL1` register value, `tsc_aux` is
the value `rdtscp` leaves in `ecx` (`IA32_TSC_AUX`).  On AArch64 the value
is masked with `0xFF` (affinity level 0); on x86 the raw `ecx` value is
used unmasked; on other architectures the index is the fixed fallback 0. -/
def libsee_get_cpu_index (arch : CpuArch) (mpidr tsc_aux : Nat) : Nat :=
  match arch with
  | CpuArch.aarch64 => mpidr &&& 0xFF
  | CpuArch.x86 => tsc_aux
  | CpuArch.other => 0

/-- The pair of global counter arrays, in their flat `indexed` view:
`cycles i` / `calls i` is flat element `i` of `libsee_thread_cycles` /
`libsee_thread_calls` (libsee.c lines 418-419). -/
structure SeeCounters : Type where
  cycles : Nat → Nat
  calls : Nat → Nat

/-- The end-minus-start elapsed value of a wrapper (libsee.c line 557):
unsigned 64-bit subtraction of the two cycle-counter readings. -/
def elapsed_cycles (t0 t1 : Nat) : Nat := (w64 + t1 - t0) % w64

/-- The counter update performed by every wrapper macro
(libsee.c lines 558-559 / 573-574 / 589-590):
`libsee_thread_cycles[cpu].named.sym += elapsed;`
`libsee_thread_calls[cpu].named.sym++;` in `size_t` arithmetic. -/
def libsee_record (cpu sym elapsed : Nat) (c : SeeCounters) : SeeCounters :=
  { cycles := Function.update c.cycles (flatIdx cpu sym)
      ((c.cycles (flatIdx cpu sym) + elapsed) % w64)
    calls := Function.update c.calls (flatIdx cpu sym)
      ((c.calls (flatIdx cpu sym) + 1) % w64) }

/-- The ordered catalog of the 94 covered symbols: the field order of the
`thread_local_counters` union (libsee.c lines 81-179), which is also the
field order of `real_apis` and the order of the `named_stats` array in
`libsee_finalize` (lines 1354-1374). -/
def catalog : List String :=
  ["strcpy", "strcpy_s", "strncpy", "strncpy_s", "strcat", "strcat_s",
   "strncat", "strncat_s", "strxfrm", "strlen", "strnlen_s", "strcmp",
   "strncmp", "strcoll", "strchr", "strrchr", "strspn", "strcspn",
   "strpbrk", "strstr", "strtok", "strtok_s", "memchr", "memcmp",
   "memset", "memset_s", "memcpy", "memcpy_s", "memmove", "memmove_s",
   "strerror", "strerror_s", "memmem", "memrchr",
   "malloc", "calloc", "realloc", "free", "aligned_alloc",
   "qsort", "qsort_s", "bsearch", "bsearch_s",
   "srand", "rand",
   "fopen", "freopen", "fclose", "fflush", "setbuf", "setvbuf", "fread",
   "fwrite", "fseek", "ftell", "fsetpos", "fgetpos", "rewind", "clearerr",
   "feof", "ferror", "perror", "scanf", "fscanf", "sscanf", "vscanf",
   "vfscanf", "vsscanf", "printf", "fprintf", "sprintf", "snprintf",
   "vprintf", "vfprintf", "vsprintf", "vsnprintf",
   "difftime", "time", "clock", "timespec_get", "timespec_getres",
   "asctime", "asctime_s", "ctime", "ctime_s", "strftime", "wcsftime",
   "gmtime", "gmtime_r", "gmtime_s", "localtime", "localtime_r",
   "localtime_s", "mktime"]

/-- The 78 names `libsee_initialize` resolves unconditionally with `dlsym`
(libsee.c lines 1161-1243), in source order. -/
def unconditionalNames : List String :=
  ["strcpy", "strncpy", "strcat", "strncat", "strxfrm", "strlen", "strcmp",
   "strncmp", "strcoll", "strchr", "strrchr", "strspn", "strcspn",
   "strpbrk", "strstr", "strtok", "memchr", "memcmp", "memset", "memcpy",
   "memmove", "strerror", "memmem", "memrchr",
   "malloc", "calloc", "realloc", "free", "aligned_alloc",
   "qsort", "bsearch", "srand", "rand",
   "fopen", "freopen", "fclose", "fflush", "setbuf", "setvbuf", "fread",
   "fwrite", "fseek", "ftell", "fsetpos", "fgetpos", "rewind", "clearerr",
   "feof", "ferror", "perror", "scanf", "fscanf", "sscanf", "vscanf",
   "vfscanf", "vsscanf", "printf", "fprintf", "sprintf", "snprintf",
   "vprintf", "vfprintf", "vsprintf", "vsnprintf",
   "difftime", "time", "clock", "timespec_get", "timespec_getres",
   "asctime", "ctime", "strftime", "wcsftime", "gmtime", "gmtime_r",
   "localtime", "localtime_r", "mktime"]

/-- The 16 names `libsee_initialize` resolves only under
`#if defined(__STDC_LIB_EXT1__)` (libsee.c lines 1245-1262). -/
def ext1Names : List String :=
  ["strcpy_s", "strncpy_s", "strcat_s", "strncat_s", "strnlen_s",
   "strtok_s", "memset_s", "memcpy_s", "memmove_s", "strerror_s",
   "qsort_s", "bsearch_s", "asctime_s", "ctime_s", "gmtime_s",
   "localtime_s"]

/-- The process-wide instrumentation state: the `libsee_apis` table (one
slot per symbol name, `none` = the `NULL` it is statically initialized to,
libsee.c line 417), the `initialized` flag of `libsee_initialize_if_not`
(line 1468), and the two global counter arrays (lines 418-419).  Slot
addresses are abstracted as `Nat`. -/
structure LibseeState : Type where
  apis : String → Option Nat
  initialized : Bool
  counters : SeeCounters

/-- The load-time state: all table slots `NULL`, flag unset, counters
zero-initialized (static storage duration). -/
def libsee_state0 : LibseeState :=
  { apis := fun _ => none
    initialized := false
    counters := { cycles := fun _ => 0, calls := fun _ => 0 } }

/-- The zeroing loop of `libsee_initialize` (libsee.c line 1156):
`for (i = 0; i < n; i++) a[i] = 0;` over the flat view of an array,
modelled as setting indices `0, …, n-1` to zero. -/
def zero_upto : Nat → (Nat → Nat) → (Nat → Nat)
  | 0, f => f
  | n + 1, f => Function.update (zero_upto n f) n 0

/-- Embedding of `libsee_initialize` (libsee.c lines 1149-1263).  The environment is
(a) `ext1`: whether `__STDC_LIB_EXT1__` is defined, and (b) `dlsym`: the
dynamic-lookup oracle `dlsym(RTLD_NEXT, name)`.  The function first zeroes
all `LIBSEE_MAX_THREADS * countersPerThread` flat counters of both arrays
(single loop starting from bank zero's `indexed` view), then stores
`dlsym name` into the slot of each name of `unconditionalNames`, and of
each name of `ext1Names` only when `ext1` holds; every other slot keeps
its previous value.  Each listed name is looked up exactly once. -/
def libsee_initialize (ext1 : Bool) (dlsym : String → Option Nat)
    (st : LibseeState) : LibseeState :=
  { apis := fun name =>
      if name ∈ unconditionalNames ∨ (ext1 = true ∧ name ∈ ext1Names) then
        dlsym name
      else st.apis name
    initialized := st.initialized
    counters :=
      { cycles := zero_upto (LIBSEE_MAX_THREADS * countersPerThread) st.counters.cycles
        calls := zero_upto (LIBSEE_MAX_THREADS * countersPerThread) st.counters.calls } }

/-- Embedding of `libsee_initialize_if_not` (libsee.c lines 1467-1473): run
`libsee_initialize` and set the flag iff the flag is unset. -/
def libsee_initialize_if_not (ext1 : Bool) (dlsym : String → Option Nat)
    (st : LibseeState) : LibseeState :=
  if st.initialized then st
  else { libsee_initialize ext1 dlsym st with initialized := true }

/-- Calling the real implementation directly (the specification's reference
behaviour for pass-through fidelity): the caller sees exactly the return
value and world effect of `f`. -/
def spec_direct_call {α β W : Type} (f : α → W → β × W) (args : α) (w : W) :
    β × W := f args w

/-- The `libsee_return` wrapper macro (libsee.c lines 563-577), generic over
the wrapped signature.  `f` is the function stored in the
`libsee_apis` slot of the symbol (its observable side effects are modelled
by the explicit world `W`); `sym` is the symbol's catalog index; `cpu`,
`t0`, `t1` are the hardware readings of `libsee_get_cpu_index` and the two
`libsee_get_cpu_cycle` calls.  The macro ensures initialization, calls `f`
once with the unmodified arguments, records the elapsed cycles and one
call, and returns `f`'s result unchanged. -/
def libsee_return_model {α β W : Type} (f : α → W → β × W)
    (sym cpu t0 t1 : Nat) (ext1 : Bool) (dlsym : String → Option Nat)
    (args : α) (st : LibseeState) (w : W) : β × W × LibseeState :=
  let st1 := libsee_initialize_if_not ext1 dlsym st
  let rw := f args w
  (rw.1, rw.2,
    { st1 with counters := libsee_record cpu sym (elapsed_cycles t0 t1) st1.counters })

/-- The `libsee_noreturn` wrapper macro (libsee.c lines 548-561), for
void-returning symbols: same protocol, no captured return value. -/
def libsee_noreturn_model {α W : Type} (f : α → W → W)
    (sym cpu t0 t1 : Nat) (ext1 : Bool) (dlsym : String → Option Nat)
    (args : α) (st : LibseeState) (w : W) : W × LibseeState :=
  let st1 := libsee_initialize_if_not ext1 dlsym st
  let w1 := f args w
  (w1,
    { st1 with counters := libsee_record cpu sym (elapsed_cycles t0 t1) st1.counters })

/-- The `libsee_assign` wrapper macro (libsee.c lines 579-592), used by the
variadic wrappers: identical protocol to `libsee_return`, storing the
result into a local that the surrounding wrapper then returns. -/
def libsee_assign_model {α β W : Type} (f : α → W → β × W)
    (sym cpu t0 t1 : Nat) (ext1 : Bool) (dlsym : String → Option Nat)
    (args : α) (st : LibseeState) (w : W) : β × W × LibseeState :=
  let st1 := libsee_initialize_if_not ext1 dlsym st
  let rw := f args w
  (rw.1, rw.2,
    { st1 with counters := libsee_record cpu sym (elapsed_cycles t0 t1) st1.counters })

/-- The variadic `printf` wrapper (libsee.c lines 940-947): it builds a
`va_list` and runs `libsee_assign(result, vprintf, format, args)` — the
real `vprintf` sibling (catalog index 72) is the function called and the
symbol measured; the wrapper then returns the captured result.  `Fmt` and
`VA` abstract `char const *` and `va_list`. -/
def printf_wrapper {Fmt VA W : Type} (real_vprintf : Fmt × VA → W → Int × W)
    (cpu t0 t1 : Nat) (ext1 : Bool) (dlsym : String → Option Nat)
    (format : Fmt) (va : VA) (st : LibseeState) (w : W) :
    Int × W × LibseeState :=
  libsee_assign_model real_vprintf 72 cpu t0 t1 ext1 dlsym (format, va) st w

/-- The variadic `fprintf` wrapper (libsee.c lines 949-956): forwards to
the real `vfprintf` (catalog index 73) via `libsee_assign`. -/
def fprintf_wrapper {S Fmt VA W : Type}
    (real_vfprintf : S × Fmt × VA → W → Int × W)
    (cpu t0 t1 : Nat) (ext1 : Bool) (dlsym : String → Option Nat)
    (stream : S) (format : Fmt) (va : VA) (st : LibseeState) (w : W) :
    Int × W × LibseeState :=
  libsee_assign_model real_vfprintf 73 cpu t0 t1 ext1 dlsym (stream, format, va) st w

/-- The variadic `sprintf` wrapper (libsee.c lines 960-967): forwards to
the real `vsprintf` (catalog index 74) via `libsee_assign`. -/
def sprintf_wrapper {P Fmt VA W : Type}
    (real_vsprintf : P × Fmt × VA → W → Int × W)
    (cpu t0 t1 : Nat) (ext1 : Bool) (dlsym : String → Option Nat)
    (str : P) (format : Fmt) (va : VA) (st : LibseeState) (w : W) :
    Int × W × LibseeState :=
  libsee_assign_model real_vsprintf 74 cpu t0 t1 ext1 dlsym (str, format, va) st w

/-- The variadic `snprintf` wrapper (libsee.c lines 971-978): forwards to
the real `vsnprintf` (catalog index 75) via `libsee_assign`. -/
def snprintf_wrapper {P Fmt VA W : Type}
    (real_vsnprintf : P × Nat × Fmt × VA → W → Int × W)
    (cpu t0 t1 : Nat) (ext1 : Bool) (dlsym : String → Option Nat)
    (str : P) (size : Nat) (format : Fmt) (va : VA) (st : LibseeState)
    (w : W) : Int × W × LibseeState :=
  libsee_assign_model real_vsnprintf 75 cpu t0 t1 ext1 dlsym
    (str, size, format, va) st w

/-- The variadic `scanf` wrapper (libsee.c lines 897-904): forwards to the
real `vscanf` (catalog index 65) via `libsee_assign`. -/
def scanf_wrapper {Fmt VA W : Type} (real_vscanf : Fmt × VA → W → Int × W)
    (cpu t0 t1 : Nat) (ext1 : Bool) (dlsym : String → Option Nat)
    (format : Fmt) (va : VA) (st : LibseeState) (w : W) :
    Int × W × LibseeState :=
  libsee_assign_model real_vscanf 65 cpu t0 t1 ext1 dlsym (format, va) st w

/-- The variadic `fscanf` wrapper (libsee.c lines 906-913): forwards to the
real `vfscanf` (catalog index 66) via `libsee_assign`. -/
def fscanf_wrapper {S Fmt VA W : Type}
    (real_vfscanf : S × Fmt × VA → W → Int × W)
    (cpu t0 t1 : Nat) (ext1 : Bool) (dlsym : String → Option Nat)
    (stream : S) (format : Fmt) (va : VA) (st : LibseeState) (w : W) :
    Int × W × LibseeState :=
  libsee_assign_model real_vfscanf 66 cpu t0 t1 ext1 dlsym (stream, format, va) st w

/-- The variadic `sscanf` wrapper (libsee.c lines 915-922): forwards to the
real `vsscanf` (catalog index 67) via `libsee_assign`. -/
def sscanf_wrapper {P Fmt VA W : Type}
    (real_vsscanf : P × Fmt × VA → W → Int × W)
    (cpu t0 t1 : Nat) (ext1 : Bool) (dlsym : String → Option Nat)
    (str : P) (format : Fmt) (va : VA) (st : LibseeState) (w : W) :
    Int × W × LibseeState :=
  libsee_assign_model real_vsscanf 67 cpu t0 t1 ext1 dlsym (str, format, va) st w

/-- One step of the inner loop of the aggregation in `libsee_finalize`
(libsee.c lines 1347-1350): add counter `j` of bank `t` into counter `j`
of bank zero, in both arrays (`size_t` addition). -/
def add_counter (t : Nat) (c : SeeCounters) (j : Nat) : SeeCounters :=
  { cycles := Function.update c.cycles j
      ((c.cycles j + c.cycles (flatIdx t j)) % w64)
    calls := Function.update c.calls j
      ((c.calls j + c.calls (flatIdx t j)) % w64) }

/-- The inner loop over the `countersPerThread` counters of bank `t`
(libsee.c lines 1347-1350). -/
def add_bank (c : SeeCounters) (t : Nat) : SeeCounters :=
  (List.range countersPerThread).foldl (add_counter t) c

/-- The aggregation loop of `libsee_finalize` (libsee.c lines 1346-1351):
`for (t = 1; t < LIBSEE_MAX_THREADS; t++)` add bank `t` into bank zero. -/
def libsee_reduce (c : SeeCounters) : SeeCounters :=
  (List.range' 1 (LIBSEE_MAX_THREADS - 1)).foldl add_bank c

/-- The effect of `libsee_finalize` (libsee.c lines 1333-1451) on the
counter arrays.  The only counter writes in `libsee_finalize` are the
aggregation into bank zero; everything after it (building `named_stats`,
sorting, formatting with `libsee_print_size` / `libsee_print_double` and
emitting through `syscall_print`) only reads the counters and never goes
through a wrapper, so the report generator performs no wrapper-style
increments. -/
def libsee_finalize_counters (c : SeeCounters) : SeeCounters :=
  libsee_reduce c

/-- A `libsee_name_stats` record (libsee.c lines 1143-1147). -/
structure NameStats : Type where
  function_name : String
  total_cycles : Nat
  total_calls : Nat
deriving DecidableEq

/-- The `named_stats` array of `libsee_finalize` after the assignment loop
(libsee.c lines 1354-1383): entry `i` carries the `i`-th catalog name and
bank zero's counters at index `i`. -/
def namedStats (c : SeeCounters) : List NameStats :=
  (List.range countersPerThread).map fun i =>
    { function_name := catalog.getD i ""
      total_cycles := c.cycles i
      total_calls := c.calls i }

/-- One bounded bubble pass (the inner loop of libsee.c lines 1388-1394):
perform at most `k` adjacent comparisons from the front, swapping when the
left element has strictly fewer total cycles than the right one. -/
def bubblePass : Nat → List NameStats → List NameStats
  | 0, l => l
  | _ + 1, [] => []
  | _ + 1, [a] => [a]
  | k + 1, a :: b :: rest =>
    if a.total_cycles < b.total_cycles then b :: bubblePass k (a :: rest)
    else a :: bubblePass k (b :: rest)

/-- The outer loop of the bubble sort (libsee.c lines 1387-1395): passes
with bounds `m, m-1, …, 1` comparisons. -/
def bubbleIter : Nat → List NameStats → List NameStats
  | 0, l => l
  | m + 1, l => bubbleIter m (bubblePass (m + 1) l)

/-- The full bubble sort of `libsee_finalize`: `counters_per_thread - 1`
passes, the first over the whole array. -/
def bubbleSort (l : List NameStats) : List NameStats :=
  bubbleIter (l.length - 1) l

/-- The rows actually rendered by the printing loop of `libsee_finalize`
(libsee.c lines 1410-1447): the sorted stats of the reduced counters,
skipping every entry with `total_cycles == 0`
(line 1417: `if (total_cycles == 0) { continue; }`). -/
def libsee_finalize_rows (c : SeeCounters) : List NameStats :=
  (bubbleSort (namedStats (libsee_reduce c))).filter
    fun r => !(r.total_cycles == 0)

/-- The digit-counting loop of `libsee_print_size` (libsee.c lines
1272-1277): `while (temp > 0) { temp /= 10; digits++; }`. -/
def countDigits : Nat → Nat
  | 0 => 0
  | t + 1 => countDigits ((t + 1) / 10) + 1
decreasing_by exact Nat.div_lt_self (Nat.succ_pos t) (by omega)

/-- The filling loop of `libsee_print_size` (libsee.c lines 1286-1291),
run with `fuel` iterations left, current quotient `temp`, loop counter
`i`, write position `index`, over buffer `buf` (modelled as `Nat → Char`):
every third digit boundary first writes the separator, then the digit
`'0' + temp % 10`, each write post-decrementing the position. -/
def printSizeLoop (sep : Char) : Nat → Nat → Nat → Nat → (Nat → Char) → (Nat → Char)
  | 0, _, _, _, buf => buf
  | fuel + 1, temp, i, index, buf =>
    if 0 < i ∧ i % 3 = 0 then
      printSizeLoop sep fuel (temp / 10) (i + 1) (index - 1 - 1)
        (Function.update (Function.update buf index sep) (index - 1)
          (Char.ofNat (48 + temp % 10)))
    else
      printSizeLoop sep fuel (temp / 10) (i + 1) (index - 1)
        (Function.update buf index (Char.ofNat (48 + temp % 10)))

/-- Embedding of `libsee_print_size` (libsee.c lines 1265-1294): writes the decimal
representation of `number` with `thousands_separator` into `buffer`,
null-terminates it, and returns the written length (terminator excluded).
Returns the updated buffer and the returned length. -/
def libsee_print_size (number : Nat) (sep : Char) (buffer : Nat → Char) :
    (Nat → Char) × Nat :=
  if number = 0 then
    (Function.update (Function.update buffer 0 '0') 1 (Char.ofNat 0), 1)
  else
    let digits := countDigits number
    let total_length := digits + (digits - 1) / 3
    let buf1 := Function.update buffer total_length (Char.ofNat 0)
    (printSizeLoop sep digits number 0 (total_length - 1) buf1, total_length)

/-- The sequence of characters the filling loop emits, in write order
(least-significant digit first, separator before every digit whose loop
counter `i` is a positive multiple of three). -/
def loopChars (sep : Char) : Nat → Nat → Nat → List Char
  | 0, _, _ => []
  | fuel + 1, temp, i =>
    (if 0 < i ∧ i % 3 = 0 then [sep] else []) ++
      Char.ofNat (48 + temp % 10) :: loopChars sep fuel (temp / 10) (i + 1)

/-- Specification-side grouping: interleave a separator into a
least-significant-first digit list, before every digit at positive index
divisible by three (i.e. between every group of three digits counted from
the least significant end). -/
def sepDigitsAux (sep : Char) : Nat → List Nat → List Char
  | _, [] => []
  | i, d :: ds =>
    (if 0 < i ∧ i % 3 = 0 then [sep] else []) ++
      Char.ofNat (48 + d) :: sepDigitsAux sep (i + 1) ds

/-- Specification-side expected buffer contents: the decimal representation
of `n` (most significant digit first) with `sep` inserted between every
group of three digits counted from the least significant digit;
`"0"` for `n = 0`.  `Nat.digits 10 n` is the least-significant-first digit
list of `n`. -/
def printSizeExpected (n : Nat) (sep : Char) : List Char :=
  if n = 0 then ['0']
  else (sepDigitsAux sep 0 (Nat.digits 10 n)).reverse

/-- Specification-side expected return value of `libsee_print_size`:
`1` for `n = 0`, otherwise `d + (d - 1) / 3` where `d` is the number of
decimal digits of `n`. -/
def printSizeExpectedLen (n : Nat) : Nat :=
  if n = 0 then 1
  else (Nat.digits 10 n).length + ((Nat.digits 10 n).length - 1) / 3

/-- State effect of one wrapper invocation on the instrumentation state
(the counter bookkeeping is identical across `libsee_return`,
`libsee_noreturn` and `libsee_assign`); `t` packs the two cycle-counter
readings of the invocation. -/
def wrapper_step (sym cpu : Nat) (ext1 : Bool) (dlsym : String → Option Nat)
    (st : LibseeState) (t : Nat × Nat) : LibseeState :=
  (libsee_noreturn_model (fun (_ : Unit) (u : Unit) => u) sym cpu t.1 t.2
    ext1 dlsym () st ()).2

/-- State effect of a sequence of wrapper invocations of the symbol with
catalog index `sym`, all executing with core index `cpu`. -/
def wrapper_iter (sym cpu : Nat) (ext1 : Bool) (dlsym : String → Option Nat)
    (ts : List (Nat × Nat)) (st : LibseeState) : LibseeState :=
  ts.foldl (wrapper_step sym cpu ext1 dlsym) st

lemma initialize_if_not_of_initialized (ext1 : Bool)
    (dlsym : String → Option Nat) (st : LibseeState)
    (h : st.initialized = true) :
    libsee_initialize_if_not ext1 dlsym st = st := by
  simp [libsee_initialize_if_not, h]

lemma wrapper_step_calls_eq (sym cpu : Nat) (ext1 : Bool)
    (dlsym : String → Option Nat) (st : LibseeState) (t : Nat × Nat)
    (h : st.initialized = true) :
    (wrapper_step sym cpu ext1 dlsym st t).initialized = true ∧
    (wrapper_step sym cpu ext1 dlsym st t).counters.calls (flatIdx cpu sym) =
      (st.counters.calls (flatIdx cpu sym) + 1) % w64 ∧
    (wrapper_step sym cpu ext1 dlsym st t).counters.cycles (flatIdx cpu sym) =
      (st.counters.cycles (flatIdx cpu sym) + elapsed_cycles t.1 t.2) % w64 := by
  simp [wrapper_step, libsee_noreturn_model,
    initialize_if_not_of_initialized ext1 dlsym st h, libsee_record, h]

lemma wrapper_iter_spec (sym cpu : Nat) (ext1 : Bool)
    (dlsym : String → Option Nat) :
    ∀ (ts : List (Nat × Nat)) (st : LibseeState),
      st.initialized = true →
      st.counters.calls (flatIdx cpu sym) < w64 →
      st.counters.cycles (flatIdx cpu sym) < w64 →
      (wrapper_iter sym cpu ext1 dlsym ts st).initialized = true ∧
      (wrapper_iter sym cpu ext1 dlsym ts st).counters.calls (flatIdx cpu sym)
        = (st.counters.calls (flatIdx cpu sym) + ts.length) % w64 ∧
      (wrapper_iter sym cpu ext1 dlsym ts st).counters.cycles (flatIdx cpu sym)
        = (st.counters.cycles (flatIdx cpu sym) +
            (ts.map fun p => elapsed_cycles p.1 p.2).sum) % w64 := by
  intro ts
  induction ts with
  | nil =>
    intro st h hc hy
    refine ⟨h, ?_, ?_⟩
    · simpa [wrapper_iter] using (Nat.mod_eq_of_lt hc).symm
    · simpa [wrapper_iter] using (Nat.mod_eq_of_lt hy).symm
  | cons t ts ih =>
    intro st h hc hy
    obtain ⟨h1, h2, h3⟩ := wrapper_step_calls_eq sym cpu ext1 dlsym st t h
    have hc1 : (wrapper_step sym cpu ext1 dlsym st t).counters.calls
        (flatIdx cpu sym) < w64 := by
      rw [h2]; exact Nat.mod_lt _ (by norm_num [w64])
    have hy1 : (wrapper_step sym cpu ext1 dlsym st t).counters.cycles
        (flatIdx cpu sym) < w64 := by
      rw [h3]; exact Nat.mod_lt _ (by norm_num [w64])
    obtain ⟨g1, g2, g3⟩ := ih (wrapper_step sym cpu ext1 dlsym st t) h1 hc1 hy1
    refine ⟨g1, ?_, ?_⟩
    · rw [show wrapper_iter sym cpu ext1 dlsym (t :: ts) st =
        wrapper_iter sym cpu ext1 dlsym ts (wrapper_step sym cpu ext1 dlsym st t)
        from rfl, g2, h2, Nat.mod_add_mod, List.length_cons]
      congr 1
      omega
    · rw [show wrapper_iter sym cpu ext1 dlsym (t :: ts) st =
        wrapper_iter sym cpu ext1 dlsym ts (wrapper_step sym cpu ext1 dlsym st t)
        from rfl, g3, h3, Nat.mod_add_mod, List.map_cons, List.sum_cons]
      congr 1
      omega

/-- C1.  For every covered symbol and every argument list, the exported
wrapper passes the original arguments unmodified to the resolved real
implementation, applies its side effects exactly once, and returns its
return value unchanged (or returns nothing for void symbols): the
caller-visible result of `libsee_return` / `libsee_noreturn` equals
calling the real implementation directly. -/
theorem c1_wrapper_pass_through {α β W : Type} (f : α → W → β × W)
    (g : α → W → W) (sym cpu t0 t1 : Nat) (ext1 : Bool)
    (dlsym : String → Option Nat) (args : α) (st : LibseeState) (w : W) :
    ((libsee_return_model f sym cpu t0 t1 ext1 dlsym args st w).1,
      (libsee_return_model f sym cpu t0 t1 ext1 dlsym args st w).2.1)
      = spec_direct_call f args w ∧
    (libsee_noreturn_model g sym cpu t0 t1 ext1 dlsym args st w).1
      = g args w :=
  ⟨rfl, rfl⟩

lemma ext1_not_unconditional : ∀ name ∈ ext1Names, name ∉ unconditionalNames := by
  decide

/-- C2, counterexample.  The claim that after initialization every slot of
the table has been populated and no wrapper observes a null slot is false:
when `__STDC_LIB_EXT1__` is not defined (the usual glibc configuration the
code itself anticipates at libsee.c lines 67-70), the `strcpy_s` slot is
never looked up and stays `NULL` even though the lookup oracle resolves
every name. -/
theorem c2_claim_counterexample :
    ( libsee_initialize false (fun _ => some 1) libsee_state0).apis "strcpy_s"
      = none := by
  have h : "strcpy_s" ∉ unconditionalNames := by decide
  simp [ libsee_initialize, libsee_state0, h]

/-- C2, amended.  After `libsee_initialize` runs, each of the 78
unconditionally-resolved slots holds the result of one dynamic lookup of
its own name; the 16 `_s` slots are looked up only when
`__STDC_LIB_EXT1__` is defined, and otherwise keep their load-time null
value, so wrappers of `_s` symbols can observe a null slot even after
initialization completes. -/
theorem c2_table_population (ext1 : Bool) (dlsym : String → Option Nat)
    (st : LibseeState) (name : String) :
    (name ∈ unconditionalNames →
      ( libsee_initialize ext1 dlsym st).apis name = dlsym name) ∧
    (ext1 = true → name ∈ ext1Names →
      ( libsee_initialize ext1 dlsym st).apis name = dlsym name) ∧
    (ext1 = false → name ∈ ext1Names →
      ( libsee_initialize ext1 dlsym st).apis name = st.apis name) := by
  refine ⟨?_, ?_, ?_⟩
  · intro h
    simp [ libsee_initialize, h]
  · intro he h
    simp [ libsee_initialize, he, h]
  · intro he h
    subst he
    have hn : name ∉ unconditionalNames := ext1_not_unconditional name h
    simp [ libsee_initialize, hn]

theorem c2_table_population_witness :
    ( libsee_initialize true (fun _ => some 7) libsee_state0).apis "strcpy"
      = some 7 ∧
    ( libsee_initialize true (fun _ => some 7) libsee_state0).apis "strcpy_s"
      = some 7 ∧
    ( libsee_initialize false (fun _ => some 7) libsee_state0).apis "gmtime_s"
      = none :=
  ⟨(c2_table_population true (fun _ => some 7) libsee_state0 "strcpy").1
      (by decide),
   (c2_table_population true (fun _ => some 7) libsee_state0 "strcpy_s").2.1
      rfl (by decide),
   (c2_table_population false (fun _ => some 7) libsee_state0 "gmtime_s").2.2
      rfl (by decide)⟩

/-- C3.  Starting from any post-initialization state in which the counter
pair of core `cpu` and symbol `sym` is zero, `K` wrapper invocations that
all execute with core index `cpu` leave that core's call counter for the
symbol at exactly `K` (for any `K` below the `size_t` modulus), and its
cycle counter at the sum of the measured elapsed values; moreover each
single invocation increments the call count by one and the cycle-sum by
the elapsed value measured for it. -/
theorem c3_monotonic_counting (sym cpu : Nat) (ext1 : Bool)
    (dlsym : String → Option Nat) (ts : List (Nat × Nat)) (st : LibseeState)
    (hinit : st.initialized = true)
    (hcalls : st.counters.calls (flatIdx cpu sym) = 0)
    (hcycles : st.counters.cycles (flatIdx cpu sym) = 0)
    (hK : ts.length < w64) :
    (wrapper_iter sym cpu ext1 dlsym ts st).counters.calls (flatIdx cpu sym)
      = ts.length ∧
    (wrapper_iter sym cpu ext1 dlsym ts st).counters.cycles (flatIdx cpu sym)
      = (ts.map fun p => elapsed_cycles p.1 p.2).sum % w64 ∧
    (∀ (st' : LibseeState) (p : Nat × Nat), st'.initialized = true →
      (wrapper_step sym cpu ext1 dlsym st' p).counters.calls (flatIdx cpu sym)
        = (st'.counters.calls (flatIdx cpu sym) + 1) % w64 ∧
      (wrapper_step sym cpu ext1 dlsym st' p).counters.cycles (flatIdx cpu sym)
        = (st'.counters.cycles (flatIdx cpu sym) + elapsed_cycles p.1 p.2) % w64) := by
  have hw : (0 : Nat) < w64 := by norm_num [w64]
  obtain ⟨g1, g2, g3⟩ := wrapper_iter_spec sym cpu ext1 dlsym ts st hinit
    (by rw [hcalls]; exact hw) (by rw [hcycles]; exact hw)
  refine ⟨?_, ?_, ?_⟩
  · rw [g2, hcalls, Nat.zero_add, Nat.mod_eq_of_lt hK]
  · rw [g3, hcycles, Nat.zero_add]
  · intro st' p h'
    exact (wrapper_step_calls_eq sym cpu ext1 dlsym st' p h').2

/-- An example post-initialization state: flag set, all counters zero. -/
def post_init_state : LibseeState :=
  { apis := fun _ => none
    initialized := true
    counters := { cycles := fun _ => 0, calls := fun _ => 0 } }

theorem c3_monotonic_counting_witness :
    (wrapper_iter 0 0 false (fun _ => none) [(0, 5), (5, 9), (9, 11)]
        post_init_state).counters.calls (flatIdx 0 0) = 3 ∧
    (wrapper_iter 0 0 false (fun _ => none) [(0, 5), (5, 9), (9, 11)]
        post_init_state).counters.cycles (flatIdx 0 0)
      = ([(0, 5), (5, 9), (9, 11)].map fun p : Nat × Nat =>
          elapsed_cycles p.1 p.2).sum % w64 := by
  have h := c3_monotonic_counting 0 0 false (fun _ => none)
    [(0, 5), (5, 9), (9, 11)] post_init_state rfl rfl rfl
    (by norm_num [w64])
  exact ⟨h.1, h.2.1⟩

/-- C8, counterexample.  The claim that the core index used to select the
counter bank is always below `LIBSEE_MAX_THREADS` is false on x86: the
wrapper uses the raw `IA32_TSC_AUX` value `rdtscp` reports without any
modulus, and on a multi-node machine that value (node << 12 | cpu, e.g.
4096) is not below the bank count. -/
theorem c8_claim_counterexample :
    ¬(libsee_get_cpu_index CpuArch.x86 0 4096 < LIBSEE_MAX_THREADS) := by
  decide

/-- C8, amended.  On AArch64 the probe masks the affinity register with
`0xFF`, so the index is below 256 and hence below `LIBSEE_MAX_THREADS`;
on unsupported architectures the fixed fallback 0 is in bounds; on x86 the
raw `rdtscp` auxiliary value is used unmasked, so the bank index is in
bounds only when the hardware-reported value itself is below
`LIBSEE_MAX_THREADS` — and whenever the core index is in bounds, the
wrapper's flat counter accesses stay inside both arrays. -/
theorem c8_core_index_bounds (arch : CpuArch) (mpidr tsc_aux : Nat) :
    (arch = CpuArch.aarch64 →
      libsee_get_cpu_index arch mpidr tsc_aux < LIBSEE_MAX_THREADS) ∧
    (arch = CpuArch.other → libsee_get_cpu_index arch mpidr tsc_aux = 0) ∧
    (arch = CpuArch.x86 → tsc_aux < LIBSEE_MAX_THREADS →
      libsee_get_cpu_index arch mpidr tsc_aux < LIBSEE_MAX_THREADS) ∧
    (∀ cpu sym, cpu < LIBSEE_MAX_THREADS → sym < countersPerThread →
      flatIdx cpu sym < LIBSEE_MAX_THREADS * countersPerThread) := by
  refine ⟨?_, ?_, ?_, ?_⟩
  · rintro rfl
    have h : mpidr &&& 0xFF ≤ 0xFF := Nat.and_le_right
    simp only [libsee_get_cpu_index, LIBSEE_MAX_THREADS]
    omega
  · rintro rfl; rfl
  · rintro rfl h
    simpa [libsee_get_cpu_index] using h
  · intro cpu sym h1 h2
    simp only [flatIdx, countersPerThread, LIBSEE_MAX_THREADS] at *
    omega

theorem c8_core_index_bounds_witness :
    libsee_get_cpu_index CpuArch.aarch64 777 0 < LIBSEE_MAX_THREADS ∧
    libsee_get_cpu_index CpuArch.x86 0 3 < LIBSEE_MAX_THREADS ∧
    flatIdx 1023 93 < LIBSEE_MAX_THREADS * countersPerThread :=
  ⟨(c8_core_index_bounds CpuArch.aarch64 777 0).1 rfl,
   (c8_core_index_bounds CpuArch.x86 0 3).2.2.1 rfl (by decide),
   (c8_core_index_bounds CpuArch.x86 0 3).2.2.2 1023 93 (by decide) (by decide)⟩

lemma zero_upto_eq_zero : ∀ (n : Nat) (f : Nat → Nat) (p : Nat), p < n →
    zero_upto n f p = 0 := by
  intro n
  induction n with
  | zero => intro f p h; omega
  | succ n ih =>
    intro f p h
    by_cases hp : p = n
    · subst hp; simp [zero_upto]
    · have hlt : p < n := by omega
      simp [zero_upto, Function.update_noteq hp, ih f p hlt]

/-- C10.  After `libsee_initialize` returns, every call counter and every
cycle counter of all `LIBSEE_MAX_THREADS` banks is zero: the single
zeroing loop, iterating `LIBSEE_MAX_THREADS * countersPerThread` times
over the flat `indexed` view starting at bank zero, covers every element
of both global arrays. -/
theorem c10_init_zeroes_all_banks (ext1 : Bool)
    (dlsym : String → Option Nat) (st : LibseeState) (t j : Nat)
    (ht : t < LIBSEE_MAX_THREADS) (hj : j < countersPerThread) :
    ( libsee_initialize ext1 dlsym st).counters.calls (flatIdx t j) = 0 ∧
    ( libsee_initialize ext1 dlsym st).counters.cycles (flatIdx t j) = 0 := by
  have hb : flatIdx t j < LIBSEE_MAX_THREADS * countersPerThread := by
    simp only [flatIdx, countersPerThread, LIBSEE_MAX_THREADS] at *
    omega
  constructor
  · simpa [ libsee_initialize] using
      zero_upto_eq_zero (LIBSEE_MAX_THREADS * countersPerThread)
        st.counters.calls (flatIdx t j) hb
  · simpa [ libsee_initialize] using
      zero_upto_eq_zero (LIBSEE_MAX_THREADS * countersPerThread)
        st.counters.cycles (flatIdx t j) hb

theorem c10_init_zeroes_all_banks_witness :
    ( libsee_initialize false (fun _ => some 3) post_init_state).counters.calls
        (flatIdx 1023 93) = 0 ∧
    ( libsee_initialize false (fun _ => some 3) post_init_state).counters.cycles
        (flatIdx 1023 93) = 0 :=
  c10_init_zeroes_all_banks false (fun _ => some 3) post_init_state 1023 93
    (by decide) (by decide)

lemma add_counter_calls_at (t : Nat) (c : SeeCounters) (j : Nat) :
    (add_counter t c j).calls j = (c.calls j + c.calls (flatIdx t j)) % w64 ∧
    (add_counter t c j).cycles j = (c.cycles j + c.cycles (flatIdx t j)) % w64 := by
  simp [add_counter]

lemma add_counter_calls_ne (t : Nat) (c : SeeCounters) (j i : Nat)
    (h : i ≠ j) :
    (add_counter t c j).calls i = c.calls i ∧
    (add_counter t c j).cycles i = c.cycles i := by
  simp [add_counter, Function.update_noteq h]

lemma add_counter_fold_spec (t : Nat) (ht : 1 ≤ t) :
    ∀ (js : List Nat) (c : SeeCounters), js.Nodup →
      (∀ j ∈ js, j < countersPerThread) →
      (∀ j ∈ js,
        (js.foldl (add_counter t) c).calls j
          = (c.calls j + c.calls (flatIdx t j)) % w64 ∧
        (js.foldl (add_counter t) c).cycles j
          = (c.cycles j + c.cycles (flatIdx t j)) % w64) ∧
      (∀ i, i ∉ js →
        (js.foldl (add_counter t) c).calls i = c.calls i ∧
        (js.foldl (add_counter t) c).cycles i = c.cycles i) := by
  intro js
  induction js with
  | nil => intro c _ _; exact ⟨by simp, by simp [List.foldl]⟩
  | cons j0 js ih =>
    intro c hnd hlt
    have hnd' : js.Nodup := (List.nodup_cons.mp hnd).2
    have hj0 : j0 ∉ js := (List.nodup_cons.mp hnd).1
    have hlt' : ∀ j ∈ js, j < countersPerThread := fun j hj =>
      hlt j (List.mem_cons_of_mem j0 hj)
    have hj0lt : j0 < countersPerThread := hlt j0 (List.mem_cons_self j0 js)
    have hflat : ∀ j : Nat, flatIdx t j ≠ j0 := by
      intro j
      simp only [flatIdx, countersPerThread] at *
      omega
    have hfold : (j0 :: js).foldl (add_counter t) c
        = js.foldl (add_counter t) (add_counter t c j0) := rfl
    obtain ⟨ihin, ihout⟩ := ih (add_counter t c j0) hnd' hlt'
    constructor
    · intro j hj
      rcases List.mem_cons.mp hj with rfl | hj'
      · rw [hfold]
        obtain ⟨o1, o2⟩ := ihout j hj0
        rw [o1, o2]
        exact add_counter_calls_at t c j
      · obtain ⟨i1, i2⟩ := ihin j hj'
        have hne : j ≠ j0 := fun he => hj0 (he ▸ hj')
        obtain ⟨n1, n2⟩ := add_counter_calls_ne t c j0 j hne
        obtain ⟨m1, m2⟩ := add_counter_calls_ne t c j0 (flatIdx t j) (hflat j)
        rw [hfold, i1, i2, n1, n2, m1, m2]
        exact ⟨rfl, rfl⟩
    · intro i hi
      have hi1 : i ∉ js := fun h => hi (List.mem_cons_of_mem j0 h)
      have hi0 : i ≠ j0 := fun h => hi (h ▸ List.mem_cons_self j0 js)
      obtain ⟨o1, o2⟩ := ihout i hi1
      obtain ⟨n1, n2⟩ := add_counter_calls_ne t c j0 i hi0
      rw [hfold, o1, o2, n1, n2]
      exact ⟨rfl, rfl⟩

lemma add_bank_spec (t : Nat) (ht : 1 ≤ t) (c : SeeCounters) :
    (∀ j, j < countersPerThread →
      (add_bank c t).calls j = (c.calls j + c.calls (flatIdx t j)) % w64 ∧
      (add_bank c t).cycles j = (c.cycles j + c.cycles (flatIdx t j)) % w64) ∧
    (∀ i, countersPerThread ≤ i →
      (add_bank c t).calls i = c.calls i ∧
      (add_bank c t).cycles i = c.cycles i) := by
  obtain ⟨hin, hout⟩ := add_counter_fold_spec t ht (List.range countersPerThread)
    c (List.nodup_range countersPerThread)
    (fun j hj => List.mem_range.mp hj)
  constructor
  · intro j hj
    exact hin j (List.mem_range.mpr hj)
  · intro i hi
    refine hout i (fun h => ?_)
    have := List.mem_range.mp h
    omega

lemma reduce_fold_spec :
    ∀ (ts : List Nat) (c : SeeCounters), (∀ t ∈ ts, 1 ≤ t) →
      (∀ j, j < countersPerThread →
        (ts.foldl add_bank c).calls j % w64
          = (c.calls j + (ts.map fun t => c.calls (flatIdx t j)).sum) % w64 ∧
        (ts.foldl add_bank c).cycles j % w64
          = (c.cycles j + (ts.map fun t => c.cycles (flatIdx t j)).sum) % w64 ∧
        (ts ≠ [] → (ts.foldl add_bank c).calls j < w64 ∧
          (ts.foldl add_bank c).cycles j < w64)) ∧
      (∀ i, countersPerThread ≤ i →
        (ts.foldl add_bank c).calls i = c.calls i ∧
        (ts.foldl add_bank c).cycles i = c.cycles i) := by
  intro ts
  induction ts with
  | nil =>
    intro c _
    refine ⟨fun j _ => ⟨by simp, by simp, fun h => absurd rfl h⟩, fun i _ => ⟨rfl, rfl⟩⟩
  | cons t0 ts ih =>
    intro c hts
    have ht0 : 1 ≤ t0 := hts t0 (List.mem_cons_self t0 ts)
    have hts' : ∀ t ∈ ts, 1 ≤ t := fun t ht => hts t (List.mem_cons_of_mem t0 ht)
    obtain ⟨bin, bout⟩ := add_bank_spec t0 ht0 c
    obtain ⟨iin, iout⟩ := ih (add_bank c t0) hts'
    have hfold : (t0 :: ts).foldl add_bank c = ts.foldl add_bank (add_bank c t0) := rfl
    have hw : 0 < w64 := by norm_num [w64]
    constructor
    · intro j hj
      have hmap : ∀ a ∈ ts, (add_bank c t0).calls (flatIdx a j) = c.calls (flatIdx a j) := by
        intro a ha
        have h94 : countersPerThread ≤ flatIdx a j := by
          have := hts' a ha
          simp only [flatIdx, countersPerThread] at *
          omega
        exact (bout (flatIdx a j) h94).1
      have hmap' : ∀ a ∈ ts, (add_bank c t0).cycles (flatIdx a j) = c.cycles (flatIdx a j) := by
        intro a ha
        have h94 : countersPerThread ≤ flatIdx a j := by
          have := hts' a ha
          simp only [flatIdx, countersPerThread] at *
          omega
        exact (bout (flatIdx a j) h94).2
      obtain ⟨e1, e2, e3⟩ := iin j hj
      refine ⟨?_, ?_, ?_⟩
      · rw [hfold, e1, List.map_congr_left hmap, (bin j hj).1, Nat.mod_add_mod,
          List.map_cons, List.sum_cons]
        congr 1
        omega
      · rw [hfold, e2, List.map_congr_left hmap', (bin j hj).2, Nat.mod_add_mod,
          List.map_cons, List.sum_cons]
        congr 1
        omega
      · intro _
        rw [hfold]
        by_cases hnil : ts = []
        · subst hnil
          simp only [List.foldl]
          exact ⟨by rw [(bin j hj).1]; exact Nat.mod_lt _ hw,
                 by rw [(bin j hj).2]; exact Nat.mod_lt _ hw⟩
        · exact e3 hnil
    · intro i hi
      rw [hfold]
      obtain ⟨o1, o2⟩ := iout i hi
      obtain ⟨p1, p2⟩ := bout i hi
      rw [o1, o2, p1, p2]
      exact ⟨rfl, rfl⟩

/-- C4.  For every symbol index `j`, after the reduction step of the
report generator, bank zero's call/cycle pair equals the element-wise
(`size_t`) sum over all `LIBSEE_MAX_THREADS` banks of their pre-reduction
values, every counter of banks one and above is left unchanged, and the
report generator's counter effect is exactly this reduction — it performs
no wrapper-style increments on any bank. -/
theorem c4_reduction_correct (c : SeeCounters) (j : Nat)
    (hj : j < countersPerThread) :
    (libsee_finalize_counters c).calls j
      = ((List.range LIBSEE_MAX_THREADS).map fun t => c.calls (flatIdx t j)).sum % w64 ∧
    (libsee_finalize_counters c).cycles j
      = ((List.range LIBSEE_MAX_THREADS).map fun t => c.cycles (flatIdx t j)).sum % w64 ∧
    (∀ t j', 1 ≤ t →
      (libsee_finalize_counters c).calls (flatIdx t j') = c.calls (flatIdx t j') ∧
      (libsee_finalize_counters c).cycles (flatIdx t j') = c.cycles (flatIdx t j')) := by
  have hts : ∀ t ∈ List.range' 1 (LIBSEE_MAX_THREADS - 1), 1 ≤ t :=
    fun t ht => (List.mem_range'_1.mp ht).1
  obtain ⟨hin, hout⟩ := reduce_fold_spec (List.range' 1 (LIBSEE_MAX_THREADS - 1)) c hts
  obtain ⟨e1, e2, e3⟩ := hin j hj
  have hne : List.range' 1 (LIBSEE_MAX_THREADS - 1) ≠ [] := by
    simp [List.range'_eq_nil, LIBSEE_MAX_THREADS]
  obtain ⟨b1, b2⟩ := e3 hne
  have hsplit : List.range LIBSEE_MAX_THREADS
      = 0 :: List.range' 1 (LIBSEE_MAX_THREADS - 1) := by
    rw [List.range_eq_range']
    exact List.range'_succ ..
  have hforj : flatIdx 0 j = j := by simp [flatIdx]
  have hred : libsee_finalize_counters c
      = (List.range' 1 (LIBSEE_MAX_THREADS - 1)).foldl add_bank c := rfl
  refine ⟨?_, ?_, ?_⟩
  · rw [hred, ← Nat.mod_eq_of_lt b1, e1, hsplit, List.map_cons, List.sum_cons, hforj]
  · rw [hred, ← Nat.mod_eq_of_lt b2, e2, hsplit, List.map_cons, List.sum_cons, hforj]
  · intro t j' ht
    have h94 : countersPerThread ≤ flatIdx t j' := by
      show (94 : Nat) ≤ 94 * t + j'
      omega
    rw [hred]
    exact hout (flatIdx t j') h94

/-- An example pre-reduction counter state with every counter equal to 1. -/
def cOnes : SeeCounters := { cycles := fun _ => 1, calls := fun _ => 1 }

theorem c4_reduction_correct_witness :
    (libsee_finalize_counters cOnes).calls 0
      = ((List.range LIBSEE_MAX_THREADS).map fun t => cOnes.calls (flatIdx t 0)).sum % w64 ∧
    (libsee_finalize_counters cOnes).cycles 0
      = ((List.range LIBSEE_MAX_THREADS).map fun t => cOnes.cycles (flatIdx t 0)).sum % w64 ∧
    (libsee_finalize_counters cOnes).calls (flatIdx 1 5) = cOnes.calls (flatIdx 1 5) :=
  ⟨(c4_reduction_correct cOnes 0 (by decide)).1,
   (c4_reduction_correct cOnes 0 (by decide)).2.1,
   ((c4_reduction_correct cOnes 0 (by decide)).2.2 1 5 (by decide)).1⟩

lemma bubblePass_singleton (k : Nat) (a : NameStats) :
    bubblePass k [a] = [a] := by
  cases k <;> rfl

lemma bubblePass_length (k : Nat) :
    ∀ l : List NameStats, (bubblePass k l).length = l.length := by
  induction k with
  | zero => intro l; rfl
  | succ k ih =>
    intro l
    match l with
    | [] => rfl
    | [a] => rfl
    | a :: b :: rest =>
      by_cases h : a.total_cycles < b.total_cycles
      · simp only [bubblePass, if_pos h, List.length_cons, ih]
      · simp only [bubblePass, if_neg h, List.length_cons, ih]

lemma bubblePass_filter (cyc : Nat) (k : Nat) :
    ∀ l : List NameStats,
      (bubblePass k l).filter (fun r => r.total_cycles == cyc)
        = l.filter (fun r => r.total_cycles == cyc) := by
  induction k with
  | zero => intro l; rfl
  | succ k ih =>
    intro l
    match l with
    | [] => rfl
    | [a] => rfl
    | a :: b :: rest =>
      by_cases h : a.total_cycles < b.total_cycles
      · have hne : ¬(a.total_cycles = cyc ∧ b.total_cycles = cyc) := by
          rintro ⟨h1, h2⟩
          omega
        simp only [bubblePass, if_pos h]
        rw [List.filter_cons, List.filter_cons, List.filter_cons, ih]
        rw [List.filter_cons]
        by_cases ha : a.total_cycles = cyc
        · have hb : ¬(b.total_cycles = cyc) := fun hb => hne ⟨ha, hb⟩
          simp [ha, hb]
        · by_cases hb : b.total_cycles = cyc
          · simp [ha, hb]
          · simp [ha, hb]
      · simp only [bubblePass, if_neg h, List.filter_cons, ih]

lemma bubblePass_mem (k : Nat) (l : List NameStats) (x : NameStats) :
    x ∈ bubblePass k l ↔ x ∈ l := by
  constructor
  · intro hx
    have h1 : x ∈ (bubblePass k l).filter
        (fun r => r.total_cycles == x.total_cycles) :=
      List.mem_filter.mpr ⟨hx, by simp⟩
    rw [bubblePass_filter x.total_cycles k l] at h1
    exact (List.mem_filter.mp h1).1
  · intro hx
    have h1 : x ∈ l.filter (fun r => r.total_cycles == x.total_cycles) :=
      List.mem_filter.mpr ⟨hx, by simp⟩
    rw [← bubblePass_filter x.total_cycles k l] at h1
    exact (List.mem_filter.mp h1).1

lemma bubblePass_append (k : Nat) :
    ∀ (l1 l2 : List NameStats), k < l1.length →
      bubblePass k (l1 ++ l2) = bubblePass k l1 ++ l2 := by
  induction k with
  | zero => intro l1 l2 _; rfl
  | succ k ih =>
    intro l1 l2 hk
    match l1 with
    | [] => simp at hk
    | [a] => simp at hk
    | a :: b :: rest =>
      have hk' : k < (a :: rest).length := by
        simp only [List.length_cons] at *
        omega
      have hk'' : k < (b :: rest).length := by
        simp only [List.length_cons] at *
        omega
      by_cases h : a.total_cycles < b.total_cycles
      · show bubblePass (k + 1) (a :: b :: (rest ++ l2)) = _
        simp only [bubblePass, if_pos h]
        rw [show a :: (rest ++ l2) = (a :: rest) ++ l2 from rfl, ih (a :: rest) l2 hk']
        rfl
      · show bubblePass (k + 1) (a :: b :: (rest ++ l2)) = _
        simp only [bubblePass, if_neg h]
        rw [show b :: (rest ++ l2) = (b :: rest) ++ l2 from rfl, ih (b :: rest) l2 hk'']
        rfl

lemma bubblePass_min (k : Nat) :
    ∀ l : List NameStats, l ≠ [] → l.length ≤ k + 1 →
      ∃ l2 mn, bubblePass k l = l2 ++ [mn] ∧ mn ∈ l ∧
        ∀ x ∈ l, mn.total_cycles ≤ x.total_cycles := by
  induction k with
  | zero =>
    intro l hne hlen
    match l with
    | [a] =>
      exact ⟨[], a, rfl, List.mem_singleton_self a, by
        intro x hx
        rw [List.mem_singleton.mp hx]⟩
    | [] => exact absurd rfl hne
    | a :: b :: rest => simp at hlen
  | succ k ih =>
    intro l hne hlen
    match l with
    | [] => exact absurd rfl hne
    | [a] =>
      exact ⟨[], a, bubblePass_singleton (k + 1) a, List.mem_singleton_self a, by
        intro x hx
        rw [List.mem_singleton.mp hx]⟩
    | a :: b :: rest =>
      have hlen' : (a :: rest).length ≤ k + 1 := by
        simp only [List.length_cons] at *
        omega
      have hlen'' : (b :: rest).length ≤ k + 1 := by
        simp only [List.length_cons] at *
        omega
      by_cases h : a.total_cycles < b.total_cycles
      · obtain ⟨l2, mn, heq, hmem, hmin⟩ :=
          ih (a :: rest) (List.cons_ne_nil a rest) hlen'
        refine ⟨b :: l2, mn, ?_, ?_, ?_⟩
        · simp only [bubblePass, if_pos h, heq, List.cons_append]
        · rcases List.mem_cons.mp hmem with rfl | hr
          · exact List.mem_cons_self mn (b :: rest)
          · exact List.mem_cons_of_mem a (List.mem_cons_of_mem b hr)
        · intro x hx
          rcases List.mem_cons.mp hx with rfl | hx'
          · exact hmin x (List.mem_cons_self x rest)
          · rcases List.mem_cons.mp hx' with rfl | hx''
            · have := hmin a (List.mem_cons_self a rest)
              omega
            · exact hmin x (List.mem_cons_of_mem a hx'')
      · obtain ⟨l2, mn, heq, hmem, hmin⟩ :=
          ih (b :: rest) (List.cons_ne_nil b rest) hlen''
        refine ⟨a :: l2, mn, ?_, ?_, ?_⟩
        · simp only [bubblePass, if_neg h, heq, List.cons_append]
        · exact List.mem_cons_of_mem a hmem
        · intro x hx
          rcases List.mem_cons.mp hx with rfl | hx'
          · have := hmin b (List.mem_cons_self b rest)
            omega
          · exact hmin x hx'

lemma bubbleIter_length (m : Nat) :
    ∀ l : List NameStats, (bubbleIter m l).length = l.length := by
  induction m with
  | zero => intro l; rfl
  | succ m ih =>
    intro l
    show (bubbleIter m (bubblePass (m + 1) l)).length = l.length
    rw [ih, bubblePass_length]

lemma bubbleIter_filter (cyc : Nat) (m : Nat) :
    ∀ l : List NameStats,
      (bubbleIter m l).filter (fun r => r.total_cycles == cyc)
        = l.filter (fun r => r.total_cycles == cyc) := by
  induction m with
  | zero => intro l; rfl
  | succ m ih =>
    intro l
    show (bubbleIter m (bubblePass (m + 1) l)).filter _ = _
    rw [ih, bubblePass_filter]

lemma bubbleIter_mem (m : Nat) :
    ∀ (l : List NameStats) (x : NameStats), x ∈ bubbleIter m l ↔ x ∈ l := by
  induction m with
  | zero => intro l x; exact Iff.rfl
  | succ m ih =>
    intro l x
    show x ∈ bubbleIter m (bubblePass (m + 1) l) ↔ x ∈ l
    rw [ih, bubblePass_mem]

lemma bubbleIter_append (m : Nat) :
    ∀ (l1 l2 : List NameStats), m < l1.length →
      bubbleIter m (l1 ++ l2) = bubbleIter m l1 ++ l2 := by
  induction m with
  | zero => intro l1 l2 _; rfl
  | succ m ih =>
    intro l1 l2 hm
    show bubbleIter m (bubblePass (m + 1) (l1 ++ l2)) = bubbleIter m (bubblePass (m + 1) l1) ++ l2
    rw [bubblePass_append (m + 1) l1 l2 hm, ih (bubblePass (m + 1) l1) l2 (by
      rw [bubblePass_length]
      omega)]

lemma bubbleIter_sorted (m : Nat) :
    ∀ l : List NameStats, l.length = m + 1 →
      (bubbleIter m l).Pairwise
        (fun x y => y.total_cycles ≤ x.total_cycles) := by
  induction m with
  | zero =>
    intro l hl
    match l with
    | [a] => exact List.pairwise_singleton _ a
  | succ m ih =>
    intro l hl
    have hne : l ≠ [] := by
      intro h
      rw [h] at hl
      simp at hl
    obtain ⟨l2, mn, heq, hmem, hmin⟩ := bubblePass_min (m + 1) l hne (by omega)
    have hlen2 : l2.length = m + 1 := by
      have h1 := bubblePass_length (m + 1) l
      rw [heq] at h1
      simp only [List.length_append, List.length_singleton] at h1
      omega
    show (bubbleIter m (bubblePass (m + 1) l)).Pairwise _
    rw [heq, bubbleIter_append m l2 [mn] (by omega)]
    rw [List.pairwise_append]
    refine ⟨ih l2 hlen2, List.pairwise_singleton _ mn, ?_⟩
    intro x hx y hy
    rw [List.mem_singleton.mp hy]
    have hx2 : x ∈ l2 := (bubbleIter_mem m l2 x).mp hx
    have hx3 : x ∈ bubblePass (m + 1) l := by
      rw [heq]
      exact List.mem_append_left [mn] hx2
    exact hmin x ((bubblePass_mem (m + 1) l x).mp hx3)

lemma namedStats_length (c : SeeCounters) :
    (namedStats c).length = countersPerThread := by
  simp [namedStats]

lemma bubbleSort_sorted (l : List NameStats) (hne : l ≠ []) :
    (bubbleSort l).Pairwise (fun x y => y.total_cycles ≤ x.total_cycles) := by
  have h1 : l.length = (l.length - 1) + 1 := by
    cases l with
    | nil => exact absurd rfl hne
    | cons a t => simp
  exact bubbleIter_sorted (l.length - 1) l h1

/-- C5.  The sort used by the report generator is a stable descending sort
on total cycles: the sorted `named_stats` array is ordered by total cycles
descending; filtering it to the entries of any fixed cycle total yields
exactly the corresponding subsequence of the unsorted (catalog-ordered)
array, so symbols with equal total cycles appear in catalog order; and the
rendered rows (the non-zero-cycle entries, in sorted order) are likewise
ordered by total cycles descending. -/
theorem c5_report_order_stable (c : SeeCounters) :
    ((bubbleSort (namedStats (libsee_reduce c))).Pairwise
      fun x y => y.total_cycles ≤ x.total_cycles) ∧
    (∀ cyc : Nat,
      (bubbleSort (namedStats (libsee_reduce c))).filter
          (fun r => r.total_cycles == cyc)
        = (namedStats (libsee_reduce c)).filter
          (fun r => r.total_cycles == cyc)) ∧
    ((libsee_finalize_rows c).Pairwise
      fun x y => y.total_cycles ≤ x.total_cycles) := by
  have hne : namedStats (libsee_reduce c) ≠ [] := by
    intro h
    have := namedStats_length (libsee_reduce c)
    rw [h] at this
    simp [countersPerThread] at this
  have hsorted := bubbleSort_sorted (namedStats (libsee_reduce c)) hne
  refine ⟨hsorted, ?_, ?_⟩
  · intro cyc
    exact bubbleIter_filter cyc ((namedStats (libsee_reduce c)).length - 1) _
  · exact List.Pairwise.sublist (List.filter_sublist _) hsorted

/-- A counter state in which the symbol at catalog index 0 (`strcpy`) has
been called once but its measured cycle total is zero — exactly what the
unsupported-architecture fallback produces, where `libsee_get_cpu_cycle`
always returns 0 and hence every elapsed value is 0. -/
def zeroCycleCounters : SeeCounters :=
  { cycles := fun _ => 0
    calls := fun i => if i = 0 then 1 else 0 }

lemma reduce_zeroCycle_calls : (libsee_reduce zeroCycleCounters).calls 0 = 1 := by
  have hts : ∀ t ∈ List.range' 1 (LIBSEE_MAX_THREADS - 1), 1 ≤ t :=
    fun t ht => (List.mem_range'_1.mp ht).1
  obtain ⟨hin, _⟩ := reduce_fold_spec (List.range' 1 (LIBSEE_MAX_THREADS - 1))
    zeroCycleCounters hts
  obtain ⟨e1, _, e3⟩ := hin 0 (by norm_num [countersPerThread])
  have hne : List.range' 1 (LIBSEE_MAX_THREADS - 1) ≠ [] := by
    simp [List.range'_eq_nil, LIBSEE_MAX_THREADS]
  obtain ⟨b1, _⟩ := e3 hne
  have hsum : ((List.range' 1 (LIBSEE_MAX_THREADS - 1)).map
      fun t => zeroCycleCounters.calls (flatIdx t 0)).sum = 0 := by
    refine List.sum_eq_zero ?_
    intro x hx
    obtain ⟨t, ht, rfl⟩ := List.mem_map.mp hx
    have h1 : 1 ≤ t := (List.mem_range'_1.mp ht).1
    have h2 : flatIdx t 0 ≠ 0 := by
      show (94 * t + 0 : Nat) ≠ 0
      omega
    simp [zeroCycleCounters, h2]
  have hred : libsee_reduce zeroCycleCounters
      = (List.range' 1 (LIBSEE_MAX_THREADS - 1)).foldl add_bank zeroCycleCounters := rfl
  rw [hred, ← Nat.mod_eq_of_lt b1, e1, hsum]
  show (zeroCycleCounters.calls 0 + 0) % w64 = 1
  norm_num [zeroCycleCounters, w64]

lemma reduce_zeroCycle_cycles (j : Nat) (hj : j < countersPerThread) :
    (libsee_reduce zeroCycleCounters).cycles j = 0 := by
  have hts : ∀ t ∈ List.range' 1 (LIBSEE_MAX_THREADS - 1), 1 ≤ t :=
    fun t ht => (List.mem_range'_1.mp ht).1
  obtain ⟨hin, _⟩ := reduce_fold_spec (List.range' 1 (LIBSEE_MAX_THREADS - 1))
    zeroCycleCounters hts
  obtain ⟨_, e2, e3⟩ := hin j hj
  have hne : List.range' 1 (LIBSEE_MAX_THREADS - 1) ≠ [] := by
    simp [List.range'_eq_nil, LIBSEE_MAX_THREADS]
  obtain ⟨_, b2⟩ := e3 hne
  have hsum : ((List.range' 1 (LIBSEE_MAX_THREADS - 1)).map
      fun t => zeroCycleCounters.cycles (flatIdx t j)).sum = 0 := by
    refine List.sum_eq_zero ?_
    intro x hx
    obtain ⟨t, _, rfl⟩ := List.mem_map.mp hx
    simp [zeroCycleCounters]
  have hred : libsee_reduce zeroCycleCounters
      = (List.range' 1 (LIBSEE_MAX_THREADS - 1)).foldl add_bank zeroCycleCounters := rfl
  rw [hred, ← Nat.mod_eq_of_lt b2, e2, hsum]
  show (zeroCycleCounters.cycles j + 0) % w64 = 0
  simp [zeroCycleCounters]

/-- C6, divergence theorem.  `libsee_finalize` filters rows on
`total_cycles == 0` (libsee.c line 1417), not on the call count its own
comment ("Skip functions that were never called") and the spec describe:
in a state where `strcpy` was called once but measured zero cycles, the
reduced bank zero still records one call, yet the rendered report contains
no row at all. -/
theorem c6_zero_cycle_row_dropped :
    (libsee_reduce zeroCycleCounters).calls 0 = 1 ∧
    libsee_finalize_rows zeroCycleCounters = [] := by
  refine ⟨reduce_zeroCycle_calls, ?_⟩
  refine List.filter_eq_nil_iff.mpr ?_
  intro r hr
  have hmem : r ∈ namedStats (libsee_reduce zeroCycleCounters) := by
    have h1 := (bubbleIter_mem
      ((namedStats (libsee_reduce zeroCycleCounters)).length - 1)
      (namedStats (libsee_reduce zeroCycleCounters)) r).mp hr
    exact h1
  obtain ⟨i, hi, rfl⟩ := List.mem_map.mp hmem
  have hilt : i < countersPerThread := List.mem_range.mp hi
  simp [reduce_zeroCycle_cycles i hilt]

/-- Whether a wrapper output carries the observable behaviour of exactly
one call of `f` on the original arguments and exactly one counter
increment at symbol index `sym` of core `cpu`: the returned value and
world are those of `f args w`, the (cpu, sym) call counter grew by one and
its cycle counter by the measured elapsed value, and every other flat
counter of both arrays is untouched. -/
def assign_ok {α β W : Type} (out : β × W × LibseeState) (f : α → W → β × W)
    (args : α) (sym cpu t0 t1 : Nat) (st : LibseeState) (w : W) : Prop :=
  out.1 = (f args w).1 ∧
  out.2.1 = (f args w).2 ∧
  out.2.2.counters.calls (flatIdx cpu sym)
    = (st.counters.calls (flatIdx cpu sym) + 1) % w64 ∧
  out.2.2.counters.cycles (flatIdx cpu sym)
    = (st.counters.cycles (flatIdx cpu sym) + elapsed_cycles t0 t1) % w64 ∧
  (∀ i, i ≠ flatIdx cpu sym →
    out.2.2.counters.calls i = st.counters.calls i ∧
    out.2.2.counters.cycles i = st.counters.cycles i)

lemma assign_model_ok {α β W : Type} (f : α → W → β × W)
    (sym cpu t0 t1 : Nat) (ext1 : Bool) (dlsym : String → Option Nat)
    (args : α) (st : LibseeState) (w : W) (h : st.initialized = true) :
    assign_ok (libsee_assign_model f sym cpu t0 t1 ext1 dlsym args st w)
      f args sym cpu t0 t1 st w := by
  unfold assign_ok libsee_assign_model
  rw [initialize_if_not_of_initialized ext1 dlsym st h]
  refine ⟨rfl, rfl, by simp [libsee_record], by simp [libsee_record], ?_⟩
  intro i hi
  simp [libsee_record, Function.update_noteq hi]

/-- C7.  Each variadic formatted-I/O wrapper (`printf`, `fprintf`,
`sprintf`, `snprintf`, `scanf`, `fscanf`, `sscanf`) invokes the real
"v"-prefixed sibling implementation exactly once and increments exactly
once the sibling's call and cycle counters (`assign_ok` at the sibling's
catalog index); the variadic symbol's own counters are not touched, so no
call is counted twice.  The final conjunct pins the catalog indices used
to their symbol names. -/
theorem c7_variadic_counts_sibling_once
    {Fmt VA S P W : Type}
    (fvp : Fmt × VA → W → Int × W) (fvfp : S × Fmt × VA → W → Int × W)
    (fvsp : P × Fmt × VA → W → Int × W)
    (fvsnp : P × Nat × Fmt × VA → W → Int × W)
    (fvs : Fmt × VA → W → Int × W) (fvfs : S × Fmt × VA → W → Int × W)
    (fvss : P × Fmt × VA → W → Int × W)
    (cpu t0 t1 : Nat) (ext1 : Bool) (dlsym : String → Option Nat)
    (fmt : Fmt) (va : VA) (stream : S) (p : P) (n : Nat)
    (st : LibseeState) (w : W) (h : st.initialized = true) :
    assign_ok (printf_wrapper fvp cpu t0 t1 ext1 dlsym fmt va st w)
      fvp (fmt, va) 72 cpu t0 t1 st w ∧
    assign_ok (fprintf_wrapper fvfp cpu t0 t1 ext1 dlsym stream fmt va st w)
      fvfp (stream, fmt, va) 73 cpu t0 t1 st w ∧
    assign_ok (sprintf_wrapper fvsp cpu t0 t1 ext1 dlsym p fmt va st w)
      fvsp (p, fmt, va) 74 cpu t0 t1 st w ∧
    assign_ok (snprintf_wrapper fvsnp cpu t0 t1 ext1 dlsym p n fmt va st w)
      fvsnp (p, n, fmt, va) 75 cpu t0 t1 st w ∧
    assign_ok (scanf_wrapper fvs cpu t0 t1 ext1 dlsym fmt va st w)
      fvs (fmt, va) 65 cpu t0 t1 st w ∧
    assign_ok (fscanf_wrapper fvfs cpu t0 t1 ext1 dlsym stream fmt va st w)
      fvfs (stream, fmt, va) 66 cpu t0 t1 st w ∧
    assign_ok (sscanf_wrapper fvss cpu t0 t1 ext1 dlsym p fmt va st w)
      fvss (p, fmt, va) 67 cpu t0 t1 st w ∧
    ((printf_wrapper fvp cpu t0 t1 ext1 dlsym fmt va st w).2.2.counters.calls
        (flatIdx cpu 68) = st.counters.calls (flatIdx cpu 68) ∧
      (fprintf_wrapper fvfp cpu t0 t1 ext1 dlsym stream fmt va st w).2.2.counters.calls
        (flatIdx cpu 69) = st.counters.calls (flatIdx cpu 69) ∧
      (sprintf_wrapper fvsp cpu t0 t1 ext1 dlsym p fmt va st w).2.2.counters.calls
        (flatIdx cpu 70) = st.counters.calls (flatIdx cpu 70) ∧
      (snprintf_wrapper fvsnp cpu t0 t1 ext1 dlsym p n fmt va st w).2.2.counters.calls
        (flatIdx cpu 71) = st.counters.calls (flatIdx cpu 71) ∧
      (scanf_wrapper fvs cpu t0 t1 ext1 dlsym fmt va st w).2.2.counters.calls
        (flatIdx cpu 62) = st.counters.calls (flatIdx cpu 62) ∧
      (fscanf_wrapper fvfs cpu t0 t1 ext1 dlsym stream fmt va st w).2.2.counters.calls
        (flatIdx cpu 63) = st.counters.calls (flatIdx cpu 63) ∧
      (sscanf_wrapper fvss cpu t0 t1 ext1 dlsym p fmt va st w).2.2.counters.calls
        (flatIdx cpu 64) = st.counters.calls (flatIdx cpu 64)) ∧
    (catalog.getD 68 "" = "printf" ∧ catalog.getD 72 "" = "vprintf" ∧
      catalog.getD 69 "" = "fprintf" ∧ catalog.getD 73 "" = "vfprintf" ∧
      catalog.getD 70 "" = "sprintf" ∧ catalog.getD 74 "" = "vsprintf" ∧
      catalog.getD 71 "" = "snprintf" ∧ catalog.getD 75 "" = "vsnprintf" ∧
      catalog.getD 62 "" = "scanf" ∧ catalog.getD 65 "" = "vscanf" ∧
      catalog.getD 63 "" = "fscanf" ∧ catalog.getD 66 "" = "vfscanf" ∧
      catalog.getD 64 "" = "sscanf" ∧ catalog.getD 67 "" = "vsscanf") := by
  have h72 := assign_model_ok fvp 72 cpu t0 t1 ext1 dlsym (fmt, va) st w h
  have h73 := assign_model_ok fvfp 73 cpu t0 t1 ext1 dlsym (stream, fmt, va) st w h
  have h74 := assign_model_ok fvsp 74 cpu t0 t1 ext1 dlsym (p, fmt, va) st w h
  have h75 := assign_model_ok fvsnp 75 cpu t0 t1 ext1 dlsym (p, n, fmt, va) st w h
  have h65 := assign_model_ok fvs 65 cpu t0 t1 ext1 dlsym (fmt, va) st w h
  have h66 := assign_model_ok fvfs 66 cpu t0 t1 ext1 dlsym (stream, fmt, va) st w h
  have h67 := assign_model_ok fvss 67 cpu t0 t1 ext1 dlsym (p, fmt, va) st w h
  have hne : ∀ a b : Nat, a ≠ b → flatIdx cpu a ≠ flatIdx cpu b := by
    intro a b hab
    show countersPerThread * cpu + a ≠ countersPerThread * cpu + b
    omega
  refine ⟨h72, h73, h74, h75, h65, h66, h67, ?_, by decide⟩
  exact ⟨(h72.2.2.2.2 (flatIdx cpu 68) (hne 68 72 (by omega))).1,
    (h73.2.2.2.2 (flatIdx cpu 69) (hne 69 73 (by omega))).1,
    (h74.2.2.2.2 (flatIdx cpu 70) (hne 70 74 (by omega))).1,
    (h75.2.2.2.2 (flatIdx cpu 71) (hne 71 75 (by omega))).1,
    (h65.2.2.2.2 (flatIdx cpu 62) (hne 62 65 (by omega))).1,
    (h66.2.2.2.2 (flatIdx cpu 63) (hne 63 66 (by omega))).1,
    (h67.2.2.2.2 (flatIdx cpu 64) (hne 64 67 (by omega))).1⟩

theorem c7_variadic_counts_sibling_once_witness :
    assign_ok (printf_wrapper (fun (_ : Unit × Unit) (u : Unit) => (0, u))
        0 0 5 false (fun _ => none) () () post_init_state ())
      (fun _ u => (0, u)) ((), ()) 72 0 0 5 post_init_state () :=
  (c7_variadic_counts_sibling_once
    (fun (_ : Unit × Unit) (u : Unit) => ((0 : Int), u))
    (fun (_ : Unit × Unit × Unit) (u : Unit) => ((0 : Int), u))
    (fun (_ : Unit × Unit × Unit) (u : Unit) => ((0 : Int), u))
    (fun (_ : Unit × Nat × Unit × Unit) (u : Unit) => ((0 : Int), u))
    (fun (_ : Unit × Unit) (u : Unit) => ((0 : Int), u))
    (fun (_ : Unit × Unit × Unit) (u : Unit) => ((0 : Int), u))
    (fun (_ : Unit × Unit × Unit) (u : Unit) => ((0 : Int), u))
    0 0 5 false (fun _ => none) () () () () 3 post_init_state () rfl).1

lemma countDigits_eq (n : Nat) : countDigits n = (Nat.digits 10 n).length := by
  induction n using Nat.strong_induction_on with
  | _ n ih =>
    match n with
    | 0 => simp [countDigits]
    | t + 1 =>
      have hd : Nat.digits 10 (t + 1) = (t + 1) % 10 :: Nat.digits 10 ((t + 1) / 10) :=
        Nat.digits_def' (by norm_num) (Nat.succ_pos t)
      have hlt : (t + 1) / 10 < t + 1 := Nat.div_lt_self (Nat.succ_pos t) (by norm_num)
      have h1 : countDigits (t + 1) = countDigits ((t + 1) / 10) + 1 := by
        simp [countDigits]
      rw [h1, hd, List.length_cons, ih ((t + 1) / 10) hlt]

lemma loopChars_eq_sepDigits (sep : Char) (m : Nat) :
    ∀ i : Nat, loopChars sep (Nat.digits 10 m).length m i
      = sepDigitsAux sep i (Nat.digits 10 m) := by
  induction m using Nat.strong_induction_on with
  | _ m ih =>
    intro i
    match m with
    | 0 => simp [loopChars, sepDigitsAux]
    | t + 1 =>
      have hd : Nat.digits 10 (t + 1) = (t + 1) % 10 :: Nat.digits 10 ((t + 1) / 10) :=
        Nat.digits_def' (by norm_num) (Nat.succ_pos t)
      have hlt : (t + 1) / 10 < t + 1 := Nat.div_lt_self (Nat.succ_pos t) (by norm_num)
      rw [hd, List.length_cons]
      show (if 0 < i ∧ i % 3 = 0 then [sep] else []) ++
          Char.ofNat (48 + (t + 1) % 10) ::
            loopChars sep (Nat.digits 10 ((t + 1) / 10)).length ((t + 1) / 10) (i + 1)
        = (if 0 < i ∧ i % 3 = 0 then [sep] else []) ++
          Char.ofNat (48 + (t + 1) % 10) :: sepDigitsAux sep (i + 1) (Nat.digits 10 ((t + 1) / 10))
      rw [ih ((t + 1) / 10) hlt (i + 1)]

lemma sepDigits_length (sep : Char) :
    ∀ (ds : List Nat) (i : Nat),
      (sepDigitsAux sep i ds).length
        = ds.length + ((i + ds.length + 2) / 3 - (i + 2) / 3
            - (if i = 0 ∧ ds ≠ [] then 1 else 0)) := by
  intro ds
  induction ds with
  | nil => intro i; simp [sepDigitsAux]
  | cons d ds ih =>
    intro i
    have hih := ih (i + 1)
    have hstep : (sepDigitsAux sep i (d :: ds)).length
        = (if 0 < i ∧ i % 3 = 0 then 1 else 0)
            + (1 + (sepDigitsAux sep (i + 1) ds).length) := by
      show ((if 0 < i ∧ i % 3 = 0 then [sep] else []) ++
          Char.ofNat (48 + d) :: sepDigitsAux sep (i + 1) ds).length = _
      by_cases h3 : 0 < i ∧ i % 3 = 0
      · simp [h3]
        omega
      · simp [h3]
        omega
    have e2 : (if i + 1 = 0 ∧ ds ≠ [] then 1 else 0) = 0 := by simp
    have e3 : (if i = 0 ∧ d :: ds ≠ [] then 1 else 0) = (if i = 0 then 1 else 0) := by
      by_cases hi : i = 0 <;> simp [hi]
    rw [hstep, hih, e2, List.length_cons, e3]
    rcases Nat.eq_zero_or_pos i with rfl | hip
    · have e6 : (if 0 < 0 ∧ 0 % 3 = 0 then 1 else 0) = 0 := by norm_num
      have e7 : (if (0 : Nat) = 0 then 1 else 0) = 1 := by norm_num
      rw [e6, e7]
      omega
    · have e4 : (if i = 0 then 1 else 0) = 0 := by
        simp [Nat.pos_iff_ne_zero.mp hip]
      rw [e4]
      by_cases h3 : i % 3 = 0
      · have e5 : (if 0 < i ∧ i % 3 = 0 then 1 else 0) = 1 := by simp [hip, h3]
        rw [e5]
        omega
      · have e5 : (if 0 < i ∧ i % 3 = 0 then 1 else 0) = 0 := by simp [h3]
        rw [e5]
        omega

lemma printSizeLoop_spec (sep : Char) :
    ∀ (fuel temp i index : Nat) (buf : Nat → Char),
      (loopChars sep fuel temp i).length ≤ index + 1 →
      (∀ k, k < (loopChars sep fuel temp i).length →
        printSizeLoop sep fuel temp i index buf (index - k)
          = (loopChars sep fuel temp i).getD k (Char.ofNat 0)) ∧
      (∀ p, (index < p ∨ p + (loopChars sep fuel temp i).length ≤ index) →
        printSizeLoop sep fuel temp i index buf p = buf p) := by
  intro fuel
  induction fuel with
  | zero =>
    intro temp i index buf _
    exact ⟨fun k hk => absurd hk (by simp [loopChars]), fun p _ => rfl⟩
  | succ fuel ih =>
    intro temp i index buf hlen
    by_cases hc : 0 < i ∧ i % 3 = 0
    · have hl : loopChars sep (fuel + 1) temp i
          = sep :: Char.ofNat (48 + temp % 10) :: loopChars sep fuel (temp / 10) (i + 1) := by
        simp [loopChars, hc]
      have hstep : printSizeLoop sep (fuel + 1) temp i index buf
          = printSizeLoop sep fuel (temp / 10) (i + 1) (index - 1 - 1)
            (Function.update (Function.update buf index sep) (index - 1)
              (Char.ofNat (48 + temp % 10))) := by
        show (if 0 < i ∧ i % 3 = 0 then _ else _) = _
        rw [if_pos hc]
      rw [hl] at hlen
      simp only [List.length_cons] at hlen
      have hlen' : (loopChars sep fuel (temp / 10) (i + 1)).length ≤ (index - 1 - 1) + 1 := by
        omega
      obtain ⟨ih1, ih2⟩ := ih (temp / 10) (i + 1) (index - 1 - 1)
        (Function.update (Function.update buf index sep) (index - 1)
          (Char.ofNat (48 + temp % 10))) hlen'
      constructor
      · intro k hk
        rw [hl] at hk
        simp only [List.length_cons] at hk
        rcases k with _ | k
        · rw [hl, hstep, Nat.sub_zero]
          rw [ih2 index (by omega)]
          rw [Function.update_noteq (by omega), Function.update_same]
          rfl
        · rcases k with _ | k
          · rw [hl, hstep]
            rw [ih2 (index - 1) (by omega)]
            rw [Function.update_same]
            rfl
          · have hpos : index - (k + 1 + 1) = (index - 1 - 1) - k := by omega
            rw [hl, hstep, hpos, ih1 k (by omega)]
            rfl
      · intro p hp
        rw [hl] at hp
        simp only [List.length_cons] at hp
        rw [hstep, ih2 p (by omega)]
        rw [Function.update_noteq (by omega), Function.update_noteq (by omega)]
    · have hl : loopChars sep (fuel + 1) temp i
          = Char.ofNat (48 + temp % 10) :: loopChars sep fuel (temp / 10) (i + 1) := by
        simp [loopChars, hc]
      have hstep : printSizeLoop sep (fuel + 1) temp i index buf
          = printSizeLoop sep fuel (temp / 10) (i + 1) (index - 1)
            (Function.update buf index (Char.ofNat (48 + temp % 10))) := by
        show (if 0 < i ∧ i % 3 = 0 then _ else _) = _
        rw [if_neg hc]
      rw [hl] at hlen
      simp only [List.length_cons] at hlen
      have hlen' : (loopChars sep fuel (temp / 10) (i + 1)).length ≤ (index - 1) + 1 := by
        omega
      obtain ⟨ih1, ih2⟩ := ih (temp / 10) (i + 1) (index - 1)
        (Function.update buf index (Char.ofNat (48 + temp % 10))) hlen'
      constructor
      · intro k hk
        rw [hl] at hk
        simp only [List.length_cons] at hk
        rcases k with _ | k
        · rw [hl, hstep, Nat.sub_zero]
          rw [ih2 index (by omega)]
          rw [Function.update_same]
          rfl
        · have hpos : index - (k + 1) = (index - 1) - k := by omega
          rw [hl, hstep, hpos, ih1 k (by omega)]
          rfl
      · intro p hp
        rw [hl] at hp
        simp only [List.length_cons] at hp
        rw [hstep, ih2 p (by omega)]
        rw [Function.update_noteq (by omega)]

lemma loopChars_spec_eq (sep : Char) (n : Nat) :
    loopChars sep (countDigits n) n 0 = sepDigitsAux sep 0 (Nat.digits 10 n) := by
  rw [countDigits_eq]
  exact loopChars_eq_sepDigits sep n 0

lemma sepDigits_length_zero (sep : Char) (n : Nat) (hn : n ≠ 0) :
    (sepDigitsAux sep 0 (Nat.digits 10 n)).length
      = (Nat.digits 10 n).length + ((Nat.digits 10 n).length - 1) / 3 := by
  have hne : Nat.digits 10 n ≠ [] := Nat.digits_ne_nil_iff_ne_zero.mpr hn
  have hpos : 0 < (Nat.digits 10 n).length := List.length_pos.mpr hne
  rw [sepDigits_length sep (Nat.digits 10 n) 0]
  have hif : (if (0 : Nat) = 0 ∧ Nat.digits 10 n ≠ [] then 1 else 0) = 1 := by
    simp [hne]
  rw [hif]
  omega

/-- C9.  `libsee_print_size` writes into the buffer the decimal
representation of `n` with the separator inserted between every group of
three digits counted from the least significant digit, null-terminates
it, and returns the written length excluding the terminator: `1` for
`n = 0` (writing `"0"`) and `d + (d - 1) / 3` otherwise, where `d` is the
number of decimal digits of `n`. -/
theorem c9_print_size_correct (n : Nat) (sep : Char) (buf : Nat → Char) :
    (libsee_print_size n sep buf).2 = printSizeExpectedLen n ∧
    (printSizeExpected n sep).length = printSizeExpectedLen n ∧
    (∀ p, p < printSizeExpectedLen n →
      (libsee_print_size n sep buf).1 p
        = (printSizeExpected n sep).getD p (Char.ofNat 0)) ∧
    (libsee_print_size n sep buf).1 (printSizeExpectedLen n) = Char.ofNat 0 := by
  by_cases hn : n = 0
  · subst hn
    refine ⟨rfl, rfl, ?_, ?_⟩
    · intro p hp
      have hp0 : p = 0 := by
        have : printSizeExpectedLen 0 = 1 := rfl
        omega
      subst hp0
      show Function.update (Function.update buf 0 '0') 1 (Char.ofNat 0) 0
        = (printSizeExpected 0 sep).getD 0 (Char.ofNat 0)
      rw [Function.update_noteq (by omega), Function.update_same]
      rfl
    · show Function.update (Function.update buf 0 '0') 1 (Char.ofNat 0) 1 = Char.ofNat 0
      rw [Function.update_same]
  · have hD : 0 < (Nat.digits 10 n).length :=
      List.length_pos.mpr (Nat.digits_ne_nil_iff_ne_zero.mpr hn)
    have hcd : countDigits n = (Nat.digits 10 n).length := countDigits_eq n
    have hlchars : loopChars sep (countDigits n) n 0
        = sepDigitsAux sep 0 (Nat.digits 10 n) := loopChars_spec_eq sep n
    have hllen : (loopChars sep (countDigits n) n 0).length
        = countDigits n + (countDigits n - 1) / 3 := by
      rw [hlchars, sepDigits_length_zero sep n hn, hcd]
    have hcdpos : 0 < countDigits n := by omega
    have hLpos : 0 < countDigits n + (countDigits n - 1) / 3 := by omega
    have hout : libsee_print_size n sep buf
        = (printSizeLoop sep (countDigits n) n 0
            (countDigits n + (countDigits n - 1) / 3 - 1)
            (Function.update buf (countDigits n + (countDigits n - 1) / 3)
              (Char.ofNat 0)),
           countDigits n + (countDigits n - 1) / 3) := by
      show (if n = 0 then _ else _) = _
      rw [if_neg hn]
    have hexplen : printSizeExpectedLen n
        = countDigits n + (countDigits n - 1) / 3 := by
      show (if n = 0 then 1 else
          (Nat.digits 10 n).length + ((Nat.digits 10 n).length - 1) / 3) = _
      rw [if_neg hn, hcd]
    have hexp : printSizeExpected n sep
        = (sepDigitsAux sep 0 (Nat.digits 10 n)).reverse := by
      show (if n = 0 then ['0']
          else (sepDigitsAux sep 0 (Nat.digits 10 n)).reverse) = _
      rw [if_neg hn]
    obtain ⟨sp1, sp2⟩ := printSizeLoop_spec sep (countDigits n) n 0
      (countDigits n + (countDigits n - 1) / 3 - 1)
      (Function.update buf (countDigits n + (countDigits n - 1) / 3) (Char.ofNat 0))
      (by omega)
    refine ⟨?_, ?_, ?_, ?_⟩
    · rw [hout, hexplen]
    · rw [hexp, List.length_reverse, sepDigits_length_zero sep n hn, hexplen, hcd]
    · intro p hp
      rw [hexplen] at hp
      have hk : countDigits n + (countDigits n - 1) / 3 - 1 - p
          < (loopChars sep (countDigits n) n 0).length := by
        omega
      have hsub : countDigits n + (countDigits n - 1) / 3 - 1
          - (countDigits n + (countDigits n - 1) / 3 - 1 - p) = p := by
        omega
      have h1 := sp1 (countDigits n + (countDigits n - 1) / 3 - 1 - p) hk
      rw [hsub] at h1
      rw [hout]
      show printSizeLoop sep (countDigits n) n 0 _ _ p = _
      rw [h1, hexp]
      have hplt : p < (sepDigitsAux sep 0 (Nat.digits 10 n)).reverse.length := by
        rw [List.length_reverse, sepDigits_length_zero sep n hn]
        omega
      have hplt' : countDigits n + (countDigits n - 1) / 3 - 1 - p
          < (sepDigitsAux sep 0 (Nat.digits 10 n)).length := by
        rw [sepDigits_length_zero sep n hn]
        omega
      rw [hlchars] at h1 ⊢
      rw [List.getD_eq_getElem _ _ hplt', List.getD_eq_getElem _ _ hplt,
        List.getElem_reverse]
      congr 1
      rw [sepDigits_length_zero sep n hn]
      omega
    · rw [hout, hexplen]
      show printSizeLoop sep (countDigits n) n 0 _ _
          (countDigits n + (countDigits n - 1) / 3) = _
      rw [sp2 (countDigits n + (countDigits n - 1) / 3) (by omega),
        Function.update_same]

theorem c9_print_size_correct_witness :
    (libsee_print_size 1234567 ',' (fun _ => 'X')).2 = printSizeExpectedLen 1234567 ∧
    (libsee_print_size 1234567 ',' (fun _ => 'X')).1 2
      = (printSizeExpected 1234567 ',').getD 2 (Char.ofNat 0) ∧
    (libsee_print_size 1234567 ',' (fun _ => 'X')).1 (printSizeExpectedLen 1234567)
      = Char.ofNat 0 :=
  ⟨(c9_print_size_correct 1234567 ',' (fun _ => 'X')).1,
   (c9_print_size_correct 1234567 ',' (fun _ => 'X')).2.2.1 2 (by
     have h : Nat.digits 10 1234567 = [7, 6, 5, 4, 3, 2, 1] := by norm_num
     show 2 < (if (1234567 : Nat) = 0 then 1
       else (Nat.digits 10 1234567).length + ((Nat.digits 10 1234567).length - 1) / 3)
     rw [if_neg (by norm_num), h]
     norm_num),
   (c9_print_size_correct 1234567 ',' (fun _ => 'X')).2.2.2⟩
